import Mathlib

/-!
Shallow embedding of the mate-recommendation pipeline
(`src/recall.py`, `src/vedic_calendar.py`,
`matchmaking_algo/src/features.py`, `matchmaking_algo/src/ranker.py`,
`matchmaking_algo/src/pipeline.py`) together with theorems settling the
specification claims about it.

Conventions:
* Python floats are modelled as exact rationals (`ℚ`); all constants in the
  source (`0.6`, `91.25`, `0.15`, ...) are decimal literals that we carry
  exactly.
* Fallible code (`raise`, `try/except`) is modelled with `Option`/`Except`.
* A pandas dataframe of user rows is a `List UserRec`; a Python dict is an
  association list.
-/

namespace MateRec

/-- Python `_normalize_text(x)`: `(x or "").strip().lower()` — whitespace
stripped from both ends, then lowercased, implemented directly over the
character list (all the repository's data is ASCII). -/
def normalizeText (x : String) : String :=
  String.mk (((x.toList.dropWhile Char.isWhitespace).reverse.dropWhile
    Char.isWhitespace).reverse.map Char.toLower)

/-- Python `_normalize_text` applied to an optional value (`None` behaves as `""`). -/
def normalizeTextOpt (x : Option String) : String :=
  normalizeText (x.getD "")

/-- Python `t.strip()`: whitespace stripped from both ends. -/
def stripText (t : String) : String :=
  String.mk ((t.toList.dropWhile Char.isWhitespace).reverse.dropWhile
    Char.isWhitespace).reverse

/-- Python `v.split(',')`: split on every comma, keeping empty segments. -/
def splitCommas (v : String) : List String :=
  (v.toList.splitOn ',').map String.mk

/-- Value of a decimal digit character. -/
def digitVal (c : Char) : Nat :=
  c.toNat - '0'.toNat

/-- Gregorian leap-year rule used by Python's `datetime`. -/
def isLeap (y : Nat) : Bool :=
  y % 4 = 0 && (y % 100 ≠ 0 || y % 400 = 0)

/-- Number of days in month `m` of year `y` (Python `calendar` convention). -/
def daysInMonth (y m : Nat) : Nat :=
  if m = 2 then (if isLeap y then 29 else 28)
  else if m = 4 ∨ m = 6 ∨ m = 9 ∨ m = 11 then 30
  else 31

/-- A parsed Gregorian date: year, month, day. -/
structure YMD where
  year : Nat
  month : Nat
  day : Nat
deriving DecidableEq, Repr

/-- Python `_parse_date(d)`: `datetime.strptime(d, "%Y-%m-%d").date()`,
restricted to the zero-padded 10-character form `YYYY-MM-DD` (which is the
only form the feature engine ever passes, thanks to its `len(dob) == 10`
gate).  `none` models the `ValueError` that `strptime`/`date` raise on
malformed input: the year must be 4 digits in `1..9999`, the month in
`1..12`, the day within the month. -/
def parseDate (s : String) : Option YMD :=
  match s.toList with
  | [y1, y2, y3, y4, c1, m1, m2, c2, d1, d2] =>
    if y1.isDigit ∧ y2.isDigit ∧ y3.isDigit ∧ y4.isDigit ∧
        m1.isDigit ∧ m2.isDigit ∧ d1.isDigit ∧ d2.isDigit ∧
        c1 = '-' ∧ c2 = '-' then
      let y := ((digitVal y1 * 10 + digitVal y2) * 10 + digitVal y3) * 10 + digitVal y4
      let m := digitVal m1 * 10 + digitVal m2
      let d := digitVal d1 * 10 + digitVal d2
      if 1 ≤ y ∧ 1 ≤ m ∧ m ≤ 12 ∧ 1 ≤ d ∧ d ≤ daysInMonth y m then
        some ⟨y, m, d⟩
      else none
    else none
  | _ => none

/-- Python `dt.timetuple().tm_yday`: one-based day of the year. -/
def dayOfYear (t : YMD) : Nat :=
  (List.range (t.month - 1)).foldl (fun acc i => acc + daysInMonth t.year (i + 1)) 0
    + t.day

/-- Python `vedic_calendar.vedic_lite_weighted_score(dob_user, dob_cand)`:
day-of-year distance wrapped modulo 365, blended triangular kernels at
distance 0 and 182.5 weighted 0.6/0.4, clamped into `[0, 1]`; returns `0.0`
when either date fails to parse (the `try/except` around `_parse_date`). -/
def vedic_lite_weighted_score (dob_user dob_cand : String) : ℚ :=
  match parseDate dob_user, parseDate dob_cand with
  | some du, some dc =>
    let dy_u : ℤ := dayOfYear du
    let dy_c : ℤ := dayOfYear dc
    let diff : ℚ := min (|dy_u - dy_c| : ℤ) ((365 : ℤ) - |dy_u - dy_c|)
    let same : ℚ := 1 - diff / 91.25
    let opp : ℚ := 1 - |diff - 182.5| / 91.25
    let score : ℚ := max 0 (0.6 * max same 0 + 0.4 * max opp 0)
    min 1 score
  | _, _ => 0

/-- The confidence entry of `vedic_calendar.hindu_date_from_date`
(its `tithi`/`paksha`/`nakshatra`/`yoga` string entries are irrelevant to
every claim): a latitude band factor, an equinox band factor from the
day-of-year, blended and clamped into `[0, 1]`. -/
def hinduConfidence (latitude : ℚ) (doy : Nat) : ℚ :=
  let lat_factor : ℚ := max 0.6 (1 - |latitude| / 180)
  let equinox_band : ℚ := 1 - ((|((doy % 182 : Nat) : ℤ) - 91| : ℤ) : ℚ) / 91 * 0.2
  max 0 (min 1 (0.6 * lat_factor * equinox_band + 0.2))

/-! ### User records and the filter + feature assembly engine
(`matchmaking_algo/src/features.py`) -/

/-- One dataframe row (`df.to_dict(orient="records")` entry), restricted to
the fields the feature engine reads.  String fields read through
`u.get(key, "")` are plain `String`s (missing behaves as `""`); fields whose
raw value goes through `_int_or_none` are `Option Int` (`none` models a
missing **or non-numeric** value, for which `_int_or_none` returns `None`);
optional string fields read through `u.get(key)` are `Option String`. -/
structure UserRec where
  user_id : Int
  gender : String := ""
  gender_interest : Option String := none
  min_age_pref : Option Int := none
  max_age_pref : Option Int := none
  age : Option Int := none
  city : String := ""
  city_interest : Option String := none
  tags : String := ""
  social_energy : String := ""
  humor_style : String := ""
  risk_taking : String := ""
  birth_date : String := ""
  birth_city : Option String := none
  birth_time : String := ""
deriving DecidableEq, Repr

/-- The filter-toggle dict (`filters.get(name, False)`). -/
structure Filters where
  gender : Bool := false
  age : Bool := false
  city : Bool := false
deriving DecidableEq, Repr

/-- The three boolean flags returned by `_hard_filter_flags`. -/
structure FilterFlags where
  gender : Bool
  age : Bool
  city : Bool
deriving DecidableEq, Repr

/-- Python `_parse_gender_interest(v)`: split on commas, strip, lowercase,
drop blank tokens (`[]` for a missing value). -/
def parseGenderInterest (v : Option String) : List String :=
  match v with
  | none => []
  | some s => ((splitCommas s).filter (fun t => stripText t ≠ "")).map
      (fun t => normalizeText t)

/-- Python `_tag_set(s)`: comma-split, strip, lowercase, drop blanks, as a
set (modelled as a deduplicated list). -/
def tagSet (s : String) : List String :=
  (((splitCommas s).filter (fun t => stripText t ≠ "")).map
      (fun t => normalizeText t)).dedup

/-- Python `tok in v` substring test. -/
def strContains (hay needle : String) : Bool :=
  decide (needle.toList <:+: hay.toList)

/-- Python `_energy_bucket`: introvert/low ↦ 0, extrovert/high/extravert ↦ 1,
anything else ↦ 0.5. -/
def energyBucket (v : String) : ℚ :=
  let v := normalizeText v
  if ["introvert", "low"].contains v then 0
  else if ["extrovert", "high", "extravert"].contains v then 1
  else 0.5

/-- Python `_humor_is_dark`. -/
def humorIsDark (v : String) : Bool :=
  let v := normalizeText v
  ["dark", "edgy", "sarcastic"].any (fun tok => strContains v tok)

/-- Python `_humor_is_wholesome`. -/
def humorIsWholesome (v : String) : Bool :=
  let v := normalizeText v
  ["wholesome", "clean", "light"].any (fun tok => strContains v tok)

/-- Python `_risk_bucket`: low/cautious ↦ 0, high/bold/adventurous ↦ 1,
anything else ↦ 0.5. -/
def riskBucket (v : String) : ℚ :=
  let v := normalizeText v
  if ["low", "cautious"].contains v then 0
  else if ["high", "bold", "adventurous"].contains v then 1
  else 0.5

/-- Python `_hard_filter_flags(u, c, filters)`.  The candidate's age defaults
to `0` when missing or non-numeric (`_int_or_none(c.get("age")) or 0`). -/
def hard_filter_flags (u c : UserRec) (filters : Filters) : FilterFlags :=
  let gender_ok :=
    if filters.gender then
      let u_interest := parseGenderInterest u.gender_interest
      if u_interest ≠ [] ∧ ¬ u_interest.contains "any" then
        u_interest.contains (normalizeText c.gender)
      else true
    else true
  let age_ok :=
    if filters.age then
      let c_age : Int := (c.age).getD 0
      (match u.min_age_pref with
        | some m => decide (¬ c_age < m)
        | none => true) &&
      (match u.max_age_pref with
        | some m => decide (¬ m < c_age)
        | none => true)
    else true
  let city_ok :=
    if filters.city then
      let pref := normalizeText (u.city_interest.getD "any")
      if pref ≠ "" ∧ pref ≠ "any" then
        decide (normalizeText c.city = pref)
      else true
    else true
  ⟨gender_ok, age_ok, city_ok⟩

/-- The complementarity sub-weight dict with the source defaults already
substituted (`comp_mix.get("energy", 0.34)` etc.). -/
structure CompMix where
  energy : ℚ := 0.34
  humor : ℚ := 0.33
  risk : ℚ := 0.33
deriving DecidableEq, Repr

/-- One feature row produced by `build_features`. -/
structure FeatureRow where
  user_id : Int
  match_id : Int
  base_sim : ℚ
  tag_overlap : Nat
  age_gap : Int
  energy_comp : Nat
  humor_comp : Nat
  risk_comp : Nat
  comp_index : ℚ
  filter_gender : Bool
  filter_age : Bool
  filter_city : Bool
  vedic_lite_score : ℚ
  vedic_confidence : ℚ
deriving DecidableEq, Repr

/-- The `INDIA_CITY_MAP` lookup (`(lat, lon, tz)` per lowercase city name). -/
def indiaCityMap (key : String) : Option (ℚ × ℚ × ℚ) :=
  if key = "delhi" ∨ key = "new delhi" then some (28.6139, 77.2090, 5.5)
  else if key = "mumbai" then some (19.0760, 72.8777, 5.5)
  else if key = "bengaluru" ∨ key = "bangalore" then some (12.9716, 77.5946, 5.5)
  else if key = "chennai" then some (13.0827, 80.2707, 5.5)
  else if key = "kolkata" then some (22.5726, 88.3639, 5.5)
  else if key = "hyderabad" then some (17.3850, 78.4867, 5.5)
  else none

/-- Python `_city_geocode(name)`: falsy (`None`/empty) or unknown names fall
back to Delhi. -/
def cityGeocode (name : Option String) : ℚ × ℚ × ℚ :=
  match name with
  | none => (28.6139, 77.2090, 5.5)
  | some n =>
    if n = "" then (28.6139, 77.2090, 5.5)
    else (indiaCityMap (normalizeText n)).getD (28.6139, 77.2090, 5.5)

/-- One person's side of the calendar-confidence computation in
`build_features` (features.py lines 168–180): the `confidence` entry of
`hindu_date_from_date` at the resolved birth-place latitude and the parsed
birth date, raised by the fixed `0.15` bonus capped at `1.0` when a birth
time is present (`u_conf = min(1.0, u_conf + 0.15)`). -/
def personConfidence (p : UserRec) (d : YMD) : ℚ :=
  if normalizeText p.birth_time ≠ "" then
    min 1 (hinduConfidence (cityGeocode p.birth_city).1 (dayOfYear d) + 0.15)
  else
    hinduConfidence (cityGeocode p.birth_city).1 (dayOfYear d)

/-- The calendar block of `build_features` (features.py lines 161–184):
returns `(vedic_lite_score, vedic_confidence)` for a pair of records.  Both
are `0.0` unless both normalized birth dates are nonempty 10-character
strings; `hindu_date_from_date` raises exactly when `_parse_date` does, and
the surrounding `try/except` resets both values to `0.0` in that case, which
the `parseDate` match models.  In the success case the confidence is
`max(0.0, min(1.0, min(u_conf, c_conf)))` with each side's boosted
confidence grouped as `personConfidence`. -/
def pairCalendar (u c : UserRec) : ℚ × ℚ :=
  if normalizeText u.birth_date ≠ "" ∧ normalizeText c.birth_date ≠ "" ∧
      (normalizeText u.birth_date).length = 10 ∧
      (normalizeText c.birth_date).length = 10 then
    match parseDate (normalizeText u.birth_date),
        parseDate (normalizeText c.birth_date) with
    | some du, some dc =>
      (vedic_lite_weighted_score (normalizeText u.birth_date)
          (normalizeText c.birth_date),
        max 0 (min 1 (min (personConfidence u du) (personConfidence c dc))))
    | _, _ => (0, 0)
  else (0, 0)

/-- The body of the inner candidate loop of `build_features` for one
`(cid, base_sim)` pair whose records `u`, `c` were both found: `None` models
the `continue` taken when an enabled hard filter fails, `some row` the
appended row.  (The source computes the `u_*` signals once per user in the
outer loop; they are pure, so recomputing them per pair is equivalent.) -/
def buildRow (comp_mix : CompMix) (filters : Filters) (u : UserRec)
    (uid cid : Int) (base_sim : ℚ) (c : UserRec) : Option FeatureRow :=
  let fflags := hard_filter_flags u c filters
  if fflags.gender && fflags.age && fflags.city then
    let u_tags := tagSet u.tags
    let c_tags := tagSet c.tags
    let u_age : Int := u.age.getD 0
    let c_age : Int := c.age.getD 0
    let u_energy := energyBucket u.social_energy
    let c_energy := energyBucket c.social_energy
    let u_dark := humorIsDark u.humor_style
    let c_dark := humorIsDark c.humor_style
    let u_whole := humorIsWholesome u.humor_style
    let c_whole := humorIsWholesome c.humor_style
    let u_risk := riskBucket u.risk_taking
    let c_risk := riskBucket c.risk_taking
    let energy_comp : Nat :=
      if (u_energy ≤ 0.25 ∧ 0.75 ≤ c_energy) ∨ (0.75 ≤ u_energy ∧ c_energy ≤ 0.25)
      then 1 else 0
    let humor_comp : Nat :=
      if (u_dark ∧ c_whole) ∨ (u_whole ∧ c_dark) then 1 else 0
    let risk_comp : Nat :=
      if (u_risk ≤ 0.25 ∧ 0.75 ≤ c_risk) ∨ (0.75 ≤ u_risk ∧ c_risk ≤ 0.25)
      then 1 else 0
    let pc := pairCalendar u c
    some {
      user_id := uid
      match_id := cid
      base_sim := base_sim
      tag_overlap := (u_tags.inter c_tags).length
      age_gap := |u_age - c_age|
      energy_comp := energy_comp
      humor_comp := humor_comp
      risk_comp := risk_comp
      comp_index := comp_mix.energy * energy_comp + comp_mix.humor * humor_comp
        + comp_mix.risk * risk_comp
      filter_gender := fflags.gender
      filter_age := fflags.age
      filter_city := fflags.city
      vedic_lite_score := pc.1
      vedic_confidence := pc.2 }
  else none

/-- Python `by_id` built as a dict comprehension over the records,
followed by `by_id.get(uid)`: the **last** row with the given id wins, and a
missing id yields `none`. -/
def byId (df : List UserRec) (uid : Int) : Option UserRec :=
  df.foldl (fun acc r => if r.user_id = uid then some r else acc) none

/-- The body of the outer loop of `build_features` for one dict entry
`(uid, cands)`: skip the whole entry when the user id is unknown, otherwise
build a row per surviving candidate (`continue` on an unknown candidate id
is the `none` arm of the inner match). -/
def featureRowsForUser (df : List UserRec) (comp_mix : CompMix)
    (filters : Filters) (uid : Int) (cands : List (Int × ℚ)) : List FeatureRow :=
  match byId df uid with
  | none => []
  | some u =>
    cands.filterMap (fun p =>
      match byId df p.1 with
      | none => none
      | some c => buildRow comp_mix filters u uid p.1 p.2 c)

/-- Python `features.build_features(df, candidates, comp_mix, filters)`: one
surviving feature row per `(user, candidate)` pair, in candidate-dict
order. -/
def build_features (df : List UserRec) (candidates : List (Int × List (Int × ℚ)))
    (comp_mix : CompMix) (filters : Filters) : List FeatureRow :=
  candidates.flatMap (fun p => featureRowsForUser df comp_mix filters p.1 p.2)

/-! ### Confidence-weighted ranker (`matchmaking_algo/src/ranker.py`) -/

/-- The `AdditiveRanker` weights, already extracted from the config
(`config.get("weights", {}).get("similarity", 0.30)` etc.); the legacy
novelty/prior fields are kept but unused in the final score, exactly as in
the source. -/
structure AdditiveRanker where
  w_sim : ℚ := 0.30
  w_comp : ℚ := 0.20
  w_vedic : ℚ := 0.50
  vedic_min_conf : ℚ := 0.30
  vedic_low_shrink : ℚ := 0.5
  w_nov : ℚ := 0.0
  w_pri : ℚ := 0.0
  novelty_value : ℚ := 0.05
  prior_value : ℚ := 0.0
  age_penalty : ℚ := 0.0
deriving DecidableEq, Repr

/-- A feature row plus the `final_score` column added by the ranker. -/
structure ScoredRow extends FeatureRow where
  final_score : ℚ
deriving DecidableEq, Repr

/-- One row of `AdditiveRanker.score`: the vectorized
`np.where(conf >= min_conf, w_vedic, w_vedic * low_conf_shrink)` weight and
the additive `final_score` column. -/
def AdditiveRanker.scoreRow (R : AdditiveRanker) (r : FeatureRow) : ScoredRow :=
  let vedic_weight : ℚ :=
    if R.vedic_min_conf ≤ r.vedic_confidence then R.w_vedic
    else R.w_vedic * R.vedic_low_shrink
  { r with
    final_score := R.w_sim * r.base_sim + R.w_comp * r.comp_index
      + vedic_weight * r.vedic_lite_score - R.age_penalty * (r.age_gap : ℚ) }

/-- Python `AdditiveRanker.score(feats)`: row-wise scoring of the feature table. -/
def AdditiveRanker.score (R : AdditiveRanker) (feats : List FeatureRow) :
    List ScoredRow :=
  feats.map R.scoreRow

/-- Written from the spec's words (§4.4): `final = w_sim·base_sim +
w_comp·comp_index + w_cal·cal_score − age_penalty·age_gap`, where `w_cal` is
the configured calendar weight unmodified when the row's calendar confidence
meets or exceeds the configured minimum threshold and that weight times the
configured shrink factor otherwise. -/
def specFinalScore (R : AdditiveRanker) (r : FeatureRow) : ℚ :=
  let w_cal : ℚ :=
    if r.vedic_confidence ≥ R.vedic_min_conf then R.w_vedic
    else R.w_vedic * R.vedic_low_shrink
  R.w_sim * r.base_sim + R.w_comp * r.comp_index + w_cal * r.vedic_lite_score
    - R.age_penalty * (r.age_gap : ℚ)

/-! ### Similarity recall index (`src/recall.py`) -/

/-- The `CandidateGenerator` after construction: the `user_ids` column in
dataframe order and the precomputed pairwise similarity table, indexed by
row position.  (The claims under scrutiny do not depend on how the table is
computed from the embeddings, only on how `topk_for_user` reads it; cosine
similarities are finite, which `ℚ` captures.) -/
structure CandidateGenerator where
  user_ids : List Int
  sim : Nat → Nat → ℚ

/-- Python `id_to_idx` built as a dict comprehension over `user_ids`,
followed by lookup: the **last** position holding the id (dict overwrite),
`none` when the id is absent. -/
def idToIdx (ids : List Int) (uid : Int) : Option Nat :=
  match ids with
  | [] => none
  | a :: rest =>
    match idToIdx rest uid with
    | some i => some (i + 1)
    | none => if a = uid then some 0 else none

/-- The effective comparison key of row `j` inside `topk_for_user` after
`sims[idx] = -np.inf`: the querying row gets `⊥`, every other row its
similarity entry. -/
def simKey (g : CandidateGenerator) (idx : Nat) (j : Nat) : WithBot ℚ :=
  if j = idx then ⊥ else ((g.sim idx j : ℚ) : WithBot ℚ)

/-- Relation fixing one concrete arrangement of the kind
`argpartition` + ascending `argsort` + `[::-1]` produces: strictly larger
key first, equal keys in some order (here: larger row position first, so
that the embedding is executable).  NumPy guarantees only that the composite
yields `k_eff` largest entries in non-increasing key order — the relative
order of *equal* keys is implementation-defined, since `argpartition`
(introselect/dumbselect) may reorder equal-keyed rows before the stable
argsort sees them, in either direction depending on the input.  Every
ordering theorem proved about `topk_for_user` therefore goes through
`topk_order_robust`, which holds for **every** non-increasing-key
arrangement and so does not depend on the tie choice made here. -/
def rankRel (key : Nat → WithBot ℚ) (i j : Nat) : Prop :=
  key j < key i ∨ (key i = key j ∧ j ≤ i)

instance (key : Nat → WithBot ℚ) (i j : Nat) : Decidable (rankRel key i j) := by
  unfold rankRel
  exact inferInstance

/-- Python `CandidateGenerator.topk_for_user(user_id, k)`: empty for an unknown id
or `k_eff ≤ 0`, otherwise the `k_eff = min(k, N-1)` best rows (self masked
to `⊥`) in non-increasing key order, mapped to `(user_id, similarity)`
pairs.  The source guarantees nothing about the order of equal-similarity
rows (see `rankRel`); this definition fixes one such arrangement, and the
claim theorems rely only on properties shared by all of them. -/
def topk_for_user (g : CandidateGenerator) (user_id : Int) (k : Nat) :
    List (Int × ℚ) :=
  match idToIdx g.user_ids user_id with
  | none => []
  | some idx =>
    let n := g.user_ids.length
    let k_eff := min k (n - 1)
    if k_eff = 0 then []
    else
      let order := List.insertionSort (rankRel (simKey g idx)) (List.range n)
      (order.take k_eff).map (fun j => (g.user_ids.getD j 0, g.sim idx j))

/-! ### Pipeline construction (`matchmaking_algo/src/pipeline.py`,
`src/recall.py`) -/

/-- Python `recall.find_embedding_columns(df)`: the sorted `t_*`/`e_*` columns, or
the `ValueError` raised when there are none. -/
def find_embedding_columns (cols : List String) : Except String (List String) :=
  let ecs := cols.filter (fun c => "t_".isPrefixOf c || "e_".isPrefixOf c)
  if ecs = [] then
    Except.error "No embedding columns found (expected t_ or e_ columns)"
  else
    Except.ok (List.insertionSort (fun a b : String => a ≤ b) ecs)

/-- The `user_id`-column check in `CandidateGenerator.__init__` (the
`ValueError` raised when the dataframe lacks the column). -/
def candidateGeneratorCheck (cols : List String) : Except String Unit :=
  if "user_id" ∈ cols then Except.ok ()
  else Except.error "Expected user_id column in dataframe"

/-- The constructed pipeline state that the claims depend on. -/
structure PipelineModel where
  columns : List String
  embed_cols : List String
deriving DecidableEq, Repr

/-- Python `RecommenderPipeline.__init__` restricted to its failure-relevant steps,
in source order: `find_embedding_columns(self.df)` first, then
`CandidateGenerator(self.df, ...)`.  `Except.error` models the raised
exception: no pipeline value exists on that path. -/
def pipelineInit (cols : List String) : Except String PipelineModel :=
  match find_embedding_columns cols with
  | Except.error e => Except.error e
  | Except.ok ecols =>
    match candidateGeneratorCheck cols with
    | Except.error e => Except.error e
    | Except.ok _ => Except.ok ⟨cols, ecols⟩

/-! ### Definitions written from the spec's words, for refinement claims -/

/-- Spec §4.2: "day-of-year distance (wrapped modulo 365)". -/
def specWrapDist (a b : Nat) : ℚ :=
  min (|(a : ℤ) - (b : ℤ)| : ℤ) ((365 : ℤ) - |(a : ℤ) - (b : ℤ)|)

/-- Spec §4.2: a smooth triangular kernel peaking at distance `peak`,
decaying over `91.25` days and floored at `0`. -/
def triKernel (peak d : ℚ) : ℚ :=
  max 0 (1 - |d - peak| / 91.25)

/-- Clamp into `[0, 1]`. -/
def clamp01 (x : ℚ) : ℚ :=
  min 1 (max 0 x)

/-- Spec §4.2 (claim C4): the calendar score as the clamp to `[0,1]` of
`0.6` times the kernel peaking at wrapped distance `0` plus `0.4` times the
kernel peaking at distance `182.5`. -/
def specCalendarScore (a b : YMD) : ℚ :=
  let d := specWrapDist (dayOfYear a) (dayOfYear b)
  clamp01 (0.6 * triKernel 0 d + 0.4 * triKernel 182.5 d)

/-- A birth-date string the calendar path treats as missing or malformed:
empty after normalization, not exactly 10 characters, or unparseable. -/
def malformedDate (s : String) : Prop :=
  normalizeText s = "" ∨ (normalizeText s).length ≠ 10 ∨
    parseDate (normalizeText s) = none

instance (s : String) : Decidable (malformedDate s) := by
  unfold malformedDate
  exact inferInstance

/-! ## Theorems -/

/-- C1: For every feature row, the ranker's final score equals
`w_sim·base_sim + w_comp·comp_index + w_cal·cal_score − age_penalty·age_gap`,
where `w_cal` is the configured calendar weight unmodified when the row's
calendar confidence is at least the configured minimum threshold and the
configured calendar weight times the configured shrink factor otherwise. -/
theorem ranker_final_score_formula (R : AdditiveRanker) (feats : List FeatureRow) :
    (R.score feats).map (fun r => r.final_score) = feats.map (specFinalScore R) := by
  simp only [AdditiveRanker.score, List.map_map]
  refine List.map_congr_left fun r _ => ?_
  simp only [Function.comp, AdditiveRanker.scoreRow, specFinalScore, ge_iff_le]

/-- C9: The calendar score function is symmetric in its two (arbitrary
string) arguments, malformed inputs included. -/
theorem vedic_score_symm (a b : String) :
    vedic_lite_weighted_score a b = vedic_lite_weighted_score b a := by
  unfold vedic_lite_weighted_score
  cases ha : parseDate a <;> cases hb : parseDate b <;> simp only
  rw [abs_sub_comm]

/-- C8: Pipeline initialization fails (raising the configuration error) when
the dataset lacks a `user_id` column or contains no `t_*`/`e_*` embedding
column, and no pipeline value exists after such a failure. -/
theorem pipeline_init_config_error (cols : List String)
    (h : "user_id" ∉ cols ∨
      cols.filter (fun c => "t_".isPrefixOf c || "e_".isPrefixOf c) = []) :
    (∃ msg, pipelineInit cols = Except.error msg) ∧
      ∀ p, pipelineInit cols ≠ Except.ok p := by
  have herr : ∃ msg, pipelineInit cols = Except.error msg := by
    unfold pipelineInit find_embedding_columns candidateGeneratorCheck
    by_cases he : cols.filter (fun c => "t_".isPrefixOf c || "e_".isPrefixOf c) = []
    · simp [he]
    · rcases h with h | h
      · simp [he, h]
      · exact absurd h he
  refine ⟨herr, fun p hp => ?_⟩
  obtain ⟨msg, hmsg⟩ := herr
  rw [hmsg] at hp
  exact Except.noConfusion hp

/-- C8 witness: a dataset with only an `age` column fails initialization. -/
theorem pipeline_init_config_error_witness :
    (∃ msg, pipelineInit ["age"] = Except.error msg) ∧
      ∀ p, pipelineInit ["age"] ≠ Except.ok p :=
  pipeline_init_config_error ["age"] (Or.inl (by decide))

/-- The calendar score always lands in `[0, 1]`. -/
theorem vedic_score_range (a b : String) :
    0 ≤ vedic_lite_weighted_score a b ∧ vedic_lite_weighted_score a b ≤ 1 := by
  unfold vedic_lite_weighted_score
  cases ha : parseDate a <;> cases hb : parseDate b <;> simp only
  · exact ⟨le_refl 0, by norm_num⟩
  · exact ⟨le_refl 0, by norm_num⟩
  · exact ⟨le_refl 0, by norm_num⟩
  · exact ⟨le_min (by norm_num) (le_max_left 0 _), min_le_left 1 _⟩

/-- The per-person baseline confidence always lands in `[0, 1]`. -/
theorem hinduConfidence_range (lat : ℚ) (doy : Nat) :
    0 ≤ hinduConfidence lat doy ∧ hinduConfidence lat doy ≤ 1 := by
  unfold hinduConfidence
  exact ⟨le_max_left 0 _, max_le (by norm_num) (min_le_left 1 _)⟩

/-- The per-person confidence after the birth-time bonus lands in `[0, 1]`. -/
theorem personConfidence_range (p : UserRec) (d : YMD) :
    0 ≤ personConfidence p d ∧ personConfidence p d ≤ 1 := by
  obtain ⟨h0, h1⟩ := hinduConfidence_range (cityGeocode p.birth_city).1 (dayOfYear d)
  unfold personConfidence
  split
  · exact ⟨le_min (by norm_num) (by linarith), min_le_left 1 _⟩
  · exact ⟨h0, h1⟩

/-- C5: The calendar scoring path is total: for every pair of records the
pair's calendar score and confidence lie in `[0, 1]`, and whenever either
birth date is missing or malformed both are exactly `0.0`. -/
theorem calendar_path_total (u c : UserRec) :
    (0 ≤ (pairCalendar u c).1 ∧ (pairCalendar u c).1 ≤ 1 ∧
      0 ≤ (pairCalendar u c).2 ∧ (pairCalendar u c).2 ≤ 1) ∧
    ((malformedDate u.birth_date ∨ malformedDate c.birth_date) →
      pairCalendar u c = (0, 0)) := by
  unfold pairCalendar
  split
  case isFalse hg =>
    exact ⟨⟨le_refl 0, by norm_num, le_refl 0, by norm_num⟩, fun _ => rfl⟩
  case isTrue hg =>
    obtain ⟨hu1, hc1, hu10, hc10⟩ := hg
    cases hpu : parseDate (normalizeText u.birth_date) <;>
      cases hpc : parseDate (normalizeText c.birth_date) <;> simp only
    · exact ⟨⟨le_refl 0, by norm_num, le_refl 0, by norm_num⟩, fun _ => trivial⟩
    · exact ⟨⟨le_refl 0, by norm_num, le_refl 0, by norm_num⟩, fun _ => trivial⟩
    · exact ⟨⟨le_refl 0, by norm_num, le_refl 0, by norm_num⟩, fun _ => trivial⟩
    · constructor
      · obtain ⟨hs0, hs1⟩ := vedic_score_range (normalizeText u.birth_date)
          (normalizeText c.birth_date)
        exact ⟨hs0, hs1, le_max_left 0 _, max_le (by norm_num) (min_le_left 1 _)⟩
      · intro h
        exfalso
        rcases h with h | h <;> rcases h with h | h | h <;>
          first
            | exact hu1 h
            | exact hc1 h
            | exact h hu10
            | exact h hc10
            | (rw [h] at hpu; exact Option.noConfusion hpu)
            | (rw [h] at hpc; exact Option.noConfusion hpc)

/-- C5 witness: a valid pair stays in range and an unparsable 10-character
date zeroes both signals. -/
theorem calendar_path_total_witness :
    (0 ≤ (pairCalendar { user_id := 1, birth_date := "2000-01-01" }
        { user_id := 2, birth_date := "not-a-date" }).1 ∧
      (pairCalendar { user_id := 1, birth_date := "2000-01-01" }
        { user_id := 2, birth_date := "not-a-date" }).1 ≤ 1 ∧
      0 ≤ (pairCalendar { user_id := 1, birth_date := "2000-01-01" }
        { user_id := 2, birth_date := "not-a-date" }).2 ∧
      (pairCalendar { user_id := 1, birth_date := "2000-01-01" }
        { user_id := 2, birth_date := "not-a-date" }).2 ≤ 1) ∧
    pairCalendar { user_id := 1, birth_date := "2000-01-01" }
      { user_id := 2, birth_date := "not-a-date" } = (0, 0) :=
  ⟨(calendar_path_total _ _).1,
    (calendar_path_total _ _).2 (Or.inr (Or.inr (Or.inr (by decide))))⟩

/-- C6: For a pair with two parseable 10-character birth dates, the pair's
calendar confidence is exactly the minimum of the two persons' confidences
(each the baseline from resolved birth-place latitude and day-of-year,
raised by the fixed `0.15` bonus capped at `1.0` when a birth time is
present), and it lies in `[0, 1]`. -/
theorem pair_confidence_min (u c : UserRec) (du dc : YMD)
    (hu : parseDate (normalizeText u.birth_date) = some du)
    (hc : parseDate (normalizeText c.birth_date) = some dc)
    (hul : (normalizeText u.birth_date).length = 10)
    (hcl : (normalizeText c.birth_date).length = 10) :
    (pairCalendar u c).2 = min (personConfidence u du) (personConfidence c dc) ∧
      0 ≤ (pairCalendar u c).2 ∧ (pairCalendar u c).2 ≤ 1 := by
  have hune : normalizeText u.birth_date ≠ "" := by
    intro h
    rw [h] at hul
    simp at hul
  have hcne : normalizeText c.birth_date ≠ "" := by
    intro h
    rw [h] at hcl
    simp at hcl
  have hmin0 : 0 ≤ min (personConfidence u du) (personConfidence c dc) :=
    le_min (personConfidence_range u du).1 (personConfidence_range c dc).1
  have hmin1 : min (personConfidence u du) (personConfidence c dc) ≤ 1 :=
    le_trans (min_le_left _ _) (personConfidence_range u du).2
  unfold pairCalendar
  rw [if_pos ⟨hune, hcne, hul, hcl⟩, hu, hc]
  simp only
  rw [min_eq_right hmin1, max_eq_right hmin0]
  exact ⟨rfl, hmin0, hmin1⟩

/-- C6 witness: a concrete valid pair, one side with a birth time. -/
theorem pair_confidence_min_witness :
    (pairCalendar { user_id := 1, birth_date := "2000-01-01", birth_time := "10:30" }
        { user_id := 2, birth_date := "1999-07-02" }).2 =
      min
        (personConfidence
          { user_id := 1, birth_date := "2000-01-01", birth_time := "10:30" }
          ⟨2000, 1, 1⟩)
        (personConfidence { user_id := 2, birth_date := "1999-07-02" } ⟨1999, 7, 2⟩) ∧
      0 ≤ (pairCalendar { user_id := 1, birth_date := "2000-01-01", birth_time := "10:30" }
        { user_id := 2, birth_date := "1999-07-02" }).2 ∧
      (pairCalendar { user_id := 1, birth_date := "2000-01-01", birth_time := "10:30" }
        { user_id := 2, birth_date := "1999-07-02" }).2 ≤ 1 :=
  pair_confidence_min _ _ ⟨2000, 1, 1⟩ ⟨1999, 7, 2⟩ (by decide) (by decide)
    (by decide) (by decide)

/-- A successfully parsed date has a valid month and day. -/
theorem parseDate_valid {s : String} {t : YMD} (h : parseDate s = some t) :
    1 ≤ t.month ∧ t.month ≤ 12 ∧ 1 ≤ t.day ∧ t.day ≤ daysInMonth t.year t.month := by
  simp only [parseDate] at h
  split at h
  case h_2 => exact Option.noConfusion h
  case h_1 y1 y2 y3 y4 c1 m1 m2 c2 d1 d2 =>
    split_ifs at h with h1 h2
    · injection h with h'
      subst h'
      exact ⟨h2.2.1, h2.2.2.1, h2.2.2.2.1, h2.2.2.2.2⟩

/-- The day-of-year of a valid date lies in `[1, 366]`. -/
theorem dayOfYear_bounds (t : YMD) (hm1 : 1 ≤ t.month) (hm : t.month ≤ 12)
    (hd1 : 1 ≤ t.day) (hd : t.day ≤ daysInMonth t.year t.month) :
    1 ≤ dayOfYear t ∧ dayOfYear t ≤ 366 := by
  obtain ⟨y, m, d⟩ := t
  simp only at hm1 hm hd1 hd
  constructor
  · exact le_trans hd1 (Nat.le_add_left d _)
  · cases hly : isLeap y <;> interval_cases m <;>
      simp_all [dayOfYear, daysInMonth, List.range_succ] <;> omega

/-- The clamped kernel blend of the source equals the spec's formulation for
any nonnegative wrapped distance. -/
theorem kernel_blend_eq (D : ℚ) (hD : 0 ≤ D) :
    min 1 (max 0 (0.6 * max (1 - D / 91.25) 0 + 0.4 * max (1 - |D - 182.5| / 91.25) 0))
      = clamp01 (0.6 * triKernel 0 D + 0.4 * triKernel 182.5 D) := by
  unfold clamp01 triKernel
  rw [sub_zero, abs_of_nonneg hD, max_comm (1 - D / 91.25) 0,
    max_comm (1 - |D - 182.5| / 91.25) 0]

/-- The wrapped day-of-year distance of two valid dates is nonnegative. -/
theorem specWrapDist_nonneg (a b : YMD)
    (ha : 1 ≤ dayOfYear a ∧ dayOfYear a ≤ 366)
    (hb : 1 ≤ dayOfYear b ∧ dayOfYear b ≤ 366) :
    0 ≤ specWrapDist (dayOfYear a) (dayOfYear b) := by
  unfold specWrapDist
  have habs : |(dayOfYear a : ℤ) - (dayOfYear b : ℤ)| ≤ 365 := by
    rw [abs_le]
    omega
  have h0 : (0 : ℤ) ≤ min (|(dayOfYear a : ℤ) - (dayOfYear b : ℤ)|)
      ((365 : ℤ) - |(dayOfYear a : ℤ) - (dayOfYear b : ℤ)|) :=
    le_min (abs_nonneg _) (by omega)
  exact_mod_cast h0

/-- C4: For every pair of valid dates the calendar score equals the clamp to
`[0,1]` of `0.6` times the triangular kernel at wrapped distance `0` plus
`0.4` times the kernel at distance `182.5`; in particular two users with the
identical birth date `2000-01-01` score exactly the same-season kernel
contribution `0.6`. -/
theorem calendar_score_spec :
    (∀ (a b : String) (da db : YMD), parseDate a = some da →
      parseDate b = some db →
      vedic_lite_weighted_score a b = specCalendarScore da db) ∧
    vedic_lite_weighted_score "2000-01-01" "2000-01-01" = 0.6 := by
  have hmain : ∀ (a b : String) (da db : YMD), parseDate a = some da →
      parseDate b = some db →
      vedic_lite_weighted_score a b = specCalendarScore da db := by
    intro a b da db ha hb
    have hda := parseDate_valid ha
    have hdb := parseDate_valid hb
    have hba := dayOfYear_bounds da hda.1 hda.2.1 hda.2.2.1 hda.2.2.2
    have hbb := dayOfYear_bounds db hdb.1 hdb.2.1 hdb.2.2.1 hdb.2.2.2
    have hD := specWrapDist_nonneg da db hba hbb
    unfold vedic_lite_weighted_score
    rw [ha, hb]
    simp only
    exact kernel_blend_eq (specWrapDist (dayOfYear da) (dayOfYear db)) hD
  refine ⟨hmain, ?_⟩
  have hp : parseDate "2000-01-01" = some ⟨2000, 1, 1⟩ := by decide
  rw [hmain "2000-01-01" "2000-01-01" ⟨2000, 1, 1⟩ ⟨2000, 1, 1⟩ hp hp]
  have hdoy : dayOfYear ⟨2000, 1, 1⟩ = 1 := by decide
  simp only [specCalendarScore, specWrapDist, triKernel, clamp01, hdoy]
  norm_num
  rw [abs_of_nonneg (show (0 : ℚ) ≤ 365 / 2 by norm_num)]
  norm_num

/-- C4 witness: concrete instantiation of the kernel-blend identity. -/
theorem calendar_score_spec_witness :
    vedic_lite_weighted_score "2000-01-01" "2000-03-05"
      = specCalendarScore ⟨2000, 1, 1⟩ ⟨2000, 3, 5⟩ :=
  calendar_score_spec.1 "2000-01-01" "2000-03-05" ⟨2000, 1, 1⟩ ⟨2000, 3, 5⟩
    (by decide) (by decide)

/-- C10 (amended): With the age filter enabled and a candidate whose age is
missing or non-numeric (treated as age 0), the pair passes the age filter iff
every stated minimum-age preference is ≤ 0 and every stated maximum-age
preference is ≥ 0; in particular such a candidate is dropped for every user
whose minimum-age bound is above 0. -/
theorem age_filter_missing_age (u c : UserRec) (filters : Filters)
    (henabled : filters.age = true) (hmiss : c.age = none) :
    ((hard_filter_flags u c filters).age = true ↔
      ((∀ m ∈ u.min_age_pref, m ≤ 0) ∧ (∀ m ∈ u.max_age_pref, 0 ≤ m))) ∧
    (∀ m ∈ u.min_age_pref, 0 < m → (hard_filter_flags u c filters).age = false) := by
  simp only [hard_filter_flags, henabled, hmiss, if_true, Option.getD_none]
  cases u.min_age_pref <;> cases u.max_age_pref <;> simp_all

/-- C10 counterexample to the claim as stated: a user with the stated
minimum-age preference `0` still passes the age filter against a candidate
with no age, so "passes iff the user has no minimum-age preference and any
maximum-age preference is ≥ 0" is false. -/
theorem age_filter_zero_min_cex :
    (hard_filter_flags { user_id := 1, min_age_pref := some 0 }
        { user_id := 2 } { age := true }).age = true ∧
    ¬ (({ user_id := 1, min_age_pref := some 0 } : UserRec).min_age_pref = none ∧
        ∀ m ∈ ({ user_id := 1, min_age_pref := some 0 } : UserRec).max_age_pref,
          0 ≤ m) :=
  ⟨by decide, fun h => Option.noConfusion h.1⟩

/-- C10 witness: the amended equivalence at a concrete user with bounds
`[0, 30]` and a candidate with a missing age. -/
theorem age_filter_missing_age_witness :
    ((hard_filter_flags { user_id := 1, min_age_pref := some 0, max_age_pref := some 30 }
        { user_id := 2 } { age := true }).age = true ↔
      ((∀ m ∈ ({ user_id := 1, min_age_pref := some 0, max_age_pref := some 30 } :
          UserRec).min_age_pref, m ≤ 0) ∧
        (∀ m ∈ ({ user_id := 1, min_age_pref := some 0, max_age_pref := some 30 } :
          UserRec).max_age_pref, 0 ≤ m))) ∧
    (∀ m ∈ ({ user_id := 1, min_age_pref := some 0, max_age_pref := some 30 } :
        UserRec).min_age_pref, 0 < m →
      (hard_filter_flags { user_id := 1, min_age_pref := some 0, max_age_pref := some 30 }
        { user_id := 2 } { age := true }).age = false) :=
  age_filter_missing_age _ _ _ rfl rfl

/-- Membership in `build_features` unfolded one level. -/
theorem mem_build_features {df : List UserRec}
    {candidates : List (Int × List (Int × ℚ))} {cm : CompMix} {filters : Filters}
    {row : FeatureRow} :
    row ∈ build_features df candidates cm filters ↔
      ∃ p ∈ candidates, row ∈ featureRowsForUser df cm filters p.1 p.2 := by
  unfold build_features
  exact List.mem_flatMap

/-- A produced row records the pair's ids and passing flags. -/
theorem buildRow_eq_some {cm : CompMix} {filters : Filters} {u : UserRec}
    {uid cid : Int} {s : ℚ} {c : UserRec} {row : FeatureRow}
    (h : buildRow cm filters u uid cid s c = some row) :
    ((hard_filter_flags u c filters).gender && (hard_filter_flags u c filters).age &&
      (hard_filter_flags u c filters).city) = true ∧
      row.user_id = uid ∧ row.match_id = cid := by
  simp only [buildRow] at h
  split at h
  case isTrue hp =>
    injection h with h'
    subst h'
    exact ⟨hp, rfl, rfl⟩
  case isFalse hp => exact Option.noConfusion h

/-- When every enabled filter passes, a row is produced and records the
pair's ids. -/
theorem buildRow_of_pass {cm : CompMix} {filters : Filters} {u : UserRec}
    {uid cid : Int} {s : ℚ} {c : UserRec}
    (h : ((hard_filter_flags u c filters).gender && (hard_filter_flags u c filters).age &&
      (hard_filter_flags u c filters).city) = true) :
    ∃ row, buildRow cm filters u uid cid s c = some row ∧
      row.user_id = uid ∧ row.match_id = cid := by
  simp only [buildRow]
  rw [if_pos h]
  exact ⟨_, rfl, rfl, rfl⟩

/-- Membership in the per-user block of `build_features`. -/
theorem mem_featureRowsForUser {df : List UserRec} {cm : CompMix}
    {filters : Filters} {uid : Int} {cands : List (Int × ℚ)} {row : FeatureRow} :
    row ∈ featureRowsForUser df cm filters uid cands ↔
      ∃ u, byId df uid = some u ∧ ∃ p ∈ cands, ∃ c, byId df p.1 = some c ∧
        buildRow cm filters u uid p.1 p.2 c = some row := by
  unfold featureRowsForUser
  cases hu : byId df uid
  · simp
  · simp only [List.mem_filterMap, hu, Option.some.injEq, exists_eq_left']
    constructor
    · rintro ⟨p, hp, hf⟩
      cases hc : byId df p.1
      · rw [hc] at hf
        exact Option.noConfusion hf
      · rw [hc] at hf
        exact ⟨p, hp, _, hc, hf⟩
    · rintro ⟨p, hp, c, hc, hb⟩
      refine ⟨p, hp, ?_⟩
      rw [hc]
      exact hb

/-- Disabling all filter toggles makes every flag pass. -/
theorem hard_filter_flags_all_disabled (u c : UserRec) :
    hard_filter_flags u c ⟨false, false, false⟩ = ⟨true, true, true⟩ :=
  rfl

/-- C2: A `(user, candidate)` pair from the candidate mapping contributes a
feature row iff both ids resolve in the dataset and every enabled hard
filter passes (a failing pair is dropped, not flagged); with all filter
toggles disabled, exactly the pairs whose ids both resolve are retained. -/
theorem build_features_filtering (df : List UserRec)
    (candidates : List (Int × List (Int × ℚ))) (cm : CompMix) (filters : Filters)
    (uid cid : Int) (clist : List (Int × ℚ)) (s : ℚ)
    (hentry : (uid, clist) ∈ candidates) (hcand : (cid, s) ∈ clist) :
    ((∃ row ∈ build_features df candidates cm filters,
        row.user_id = uid ∧ row.match_id = cid) ↔
      (∃ u, byId df uid = some u ∧ ∃ c, byId df cid = some c ∧
        ((hard_filter_flags u c filters).gender && (hard_filter_flags u c filters).age &&
          (hard_filter_flags u c filters).city) = true)) ∧
    (filters = ⟨false, false, false⟩ →
      ((∃ row ∈ build_features df candidates cm filters,
          row.user_id = uid ∧ row.match_id = cid) ↔
        ((∃ u, byId df uid = some u) ∧ ∃ c, byId df cid = some c))) := by
  have hiff : (∃ row ∈ build_features df candidates cm filters,
      row.user_id = uid ∧ row.match_id = cid) ↔
      (∃ u, byId df uid = some u ∧ ∃ c, byId df cid = some c ∧
        ((hard_filter_flags u c filters).gender && (hard_filter_flags u c filters).age &&
          (hard_filter_flags u c filters).city) = true) := by
    constructor
    · rintro ⟨row, hrow, hru, hrm⟩
      obtain ⟨p, _, hmem⟩ := mem_build_features.1 hrow
      obtain ⟨u, hu, q, _, c, hc, hb⟩ := mem_featureRowsForUser.1 hmem
      obtain ⟨hpass, hrup, hrmq⟩ := buildRow_eq_some hb
      rw [hrup] at hru
      rw [hrmq] at hrm
      rw [hru] at hu
      rw [hrm] at hc
      exact ⟨u, hu, c, hc, hpass⟩
    · rintro ⟨u, hu, c, hc, hpass⟩
      obtain ⟨row, hb, hru, hrm⟩ :=
        @buildRow_of_pass cm filters u uid cid s c hpass
      refine ⟨row, ?_, hru, hrm⟩
      refine mem_build_features.2 ⟨(uid, clist), hentry, ?_⟩
      exact mem_featureRowsForUser.2 ⟨u, hu, (cid, s), hcand, c, hc, hb⟩
  refine ⟨hiff, fun hf => ?_⟩
  subst hf
  refine hiff.trans ?_
  constructor
  · rintro ⟨u, hu, c, hc, -⟩
    exact ⟨⟨u, hu⟩, c, hc⟩
  · rintro ⟨⟨u, hu⟩, c, hc⟩
    exact ⟨u, hu, c, hc, by rw [hard_filter_flags_all_disabled]; rfl⟩

/-- C2 witness: a two-user dataset with one recalled pair and all filters
disabled retains the pair. -/
theorem build_features_filtering_witness :
    ((∃ row ∈ build_features [{ user_id := 1 }, { user_id := 2 }]
        [(1, [(2, 1)])] {} ⟨false, false, false⟩,
        row.user_id = 1 ∧ row.match_id = 2) ↔
      (∃ u, byId [{ user_id := 1 }, { user_id := 2 }] 1 = some u ∧
        ∃ c, byId [{ user_id := 1 }, { user_id := 2 }] 2 = some c ∧
        ((hard_filter_flags u c ⟨false, false, false⟩).gender &&
          (hard_filter_flags u c ⟨false, false, false⟩).age &&
          (hard_filter_flags u c ⟨false, false, false⟩).city) = true)) ∧
    ((⟨false, false, false⟩ : Filters) = ⟨false, false, false⟩ →
      ((∃ row ∈ build_features [{ user_id := 1 }, { user_id := 2 }]
          [(1, [(2, 1)])] {} ⟨false, false, false⟩,
          row.user_id = 1 ∧ row.match_id = 2) ↔
        ((∃ u, byId [{ user_id := 1 }, { user_id := 2 }] 1 = some u) ∧
          ∃ c, byId [{ user_id := 1 }, { user_id := 2 }] 2 = some c))) :=
  build_features_filtering [{ user_id := 1 }, { user_id := 2 }]
    [(1, [(2, 1)])] {} ⟨false, false, false⟩ 1 2 [(2, 1)] 1
    (by decide) (by decide)

instance (key : Nat → WithBot ℚ) : IsTotal Nat (rankRel key) where
  total i j := by
    unfold rankRel
    rcases lt_trichotomy (key i) (key j) with h | h | h
    · exact Or.inr (Or.inl h)
    · rcases Nat.le_total j i with hle | hle
      · exact Or.inl (Or.inr ⟨h, hle⟩)
      · exact Or.inr (Or.inr ⟨h.symm, hle⟩)
    · exact Or.inl (Or.inl h)

instance (key : Nat → WithBot ℚ) : IsTrans Nat (rankRel key) where
  trans a b c hab hbc := by
    unfold rankRel at hab hbc ⊢
    rcases hab with hab | ⟨he1, hl1⟩
    · rcases hbc with hbc | ⟨he2, hl2⟩
      · exact Or.inl (lt_trans hbc hab)
      · exact Or.inl (he2 ▸ hab)
    · rcases hbc with hbc | ⟨he2, hl2⟩
      · exact Or.inl (lt_of_lt_of_eq hbc he1.symm)
      · exact Or.inr ⟨he1.trans he2, le_trans hl2 hl1⟩

/-- The querying row's masked key is the unique `⊥`. -/
theorem simKey_eq_bot_iff (g : CandidateGenerator) (idx j : Nat) :
    simKey g idx j = ⊥ ↔ j = idx := by
  unfold simKey
  split
  case isTrue h => simp [h]
  case isFalse h => simp [h]

/-- The `rankRel`-sorted list is one non-increasing-key arrangement; all
`topk_for_user` ordering facts are proved from this weaker property, which
is the only one the source's `argpartition` + `argsort` + `[::-1]`
composite guarantees. -/
theorem sort_weakDesc (key : Nat → WithBot ℚ) (n : Nat) :
    List.Pairwise (fun i j => key j ≤ key i)
      (List.insertionSort (rankRel key) (List.range n)) := by
  refine List.Pairwise.imp ?_ (List.sorted_insertionSort (rankRel key) (List.range n))
  intro i j h
  rcases h with h | ⟨h, -⟩
  · exact le_of_lt h
  · exact le_of_eq h.symm

/-- In every non-increasing-key arrangement of the rows — whatever the order
of equal keys — the unique `⊥`-keyed row sorts last, so a prefix of at most
`n - 1` entries never contains it. -/
theorem idx_not_mem_desc_take (key : Nat → WithBot ℚ) (order : List Nat)
    (idx n k : Nat) (hkey : ∀ j, key j = ⊥ ↔ j = idx)
    (hperm : order.Perm (List.range n))
    (hdesc : List.Pairwise (fun i j => key j ≤ key i) order)
    (hk : k ≤ n - 1) (hn : 1 ≤ n) :
    idx ∉ order.take k := by
  intro hmem
  have hnodup : order.Nodup := hperm.nodup_iff.2 (List.nodup_range n)
  have hlen : order.length = n := by
    rw [hperm.length_eq, List.length_range]
  have hkn : k < n := by omega
  have hdrop : 0 < (order.drop k).length := by
    rw [List.length_drop, hlen]
    omega
  obtain ⟨b, hb⟩ := List.exists_mem_of_ne_nil _ (List.length_pos.1 hdrop)
  have hsplit : order.take k ++ order.drop k = order := List.take_append_drop k order
  have hpair : List.Pairwise (fun i j => key j ≤ key i)
      (order.take k ++ order.drop k) := by
    rw [hsplit]
    exact hdesc
  have hcross := (List.pairwise_append.1 hpair).2.2 idx hmem b hb
  have hbot : key idx = ⊥ := (hkey idx).2 rfl
  have hbidx : b = idx := (hkey b).1 (le_bot_iff.1 (hbot ▸ hcross))
  have hnd2 : (order.take k ++ order.drop k).Nodup := by
    rw [hsplit]
    exact hnodup
  rcases List.nodup_append.1 hnd2 with ⟨-, -, hdisj⟩
  exact hdisj hmem (hbidx ▸ hb)

/-- The querying row sorts strictly last in the `rankRel` arrangement, so a
prefix of at most `n - 1` entries never contains it. -/
theorem idx_not_mem_sort_take (key : Nat → WithBot ℚ) (idx n k : Nat)
    (hkey : ∀ j, key j = ⊥ ↔ j = idx) (hk : k ≤ n - 1) (hn : 1 ≤ n) :
    idx ∉ (List.insertionSort (rankRel key) (List.range n)).take k :=
  idx_not_mem_desc_take key _ idx n k hkey (List.perm_insertionSort _ _)
    (sort_weakDesc key n) hk hn

/-- A found index is in bounds. -/
theorem idToIdx_lt {ids : List Int} {uid : Int} {i : Nat}
    (h : idToIdx ids uid = some i) : i < ids.length := by
  induction ids generalizing i with
  | nil => exact Option.noConfusion h
  | cons a rest ih =>
    simp only [idToIdx] at h
    cases hr : idToIdx rest uid with
    | some j =>
      rw [hr] at h
      injection h with h'
      subst h'
      simpa using ih hr
    | none =>
      rw [hr] at h
      split_ifs at h with ha
      injection h with h'
      subst h'
      simp

/-- The index lookup fails exactly on unknown ids. -/
theorem idToIdx_eq_none {ids : List Int} {uid : Int} :
    idToIdx ids uid = none ↔ uid ∉ ids := by
  induction ids with
  | nil => simp [idToIdx]
  | cons a rest ih =>
    simp only [idToIdx]
    cases hr : idToIdx rest uid with
    | some j =>
      have hmem : uid ∈ rest := by
        by_contra hmem
        rw [ih.2 hmem] at hr
        exact Option.noConfusion hr
      simp [hmem]
    | none =>
      have hrest : uid ∉ rest := ih.1 hr
      split_ifs with ha
      · simp [ha]
      · constructor
        · intro _
          simp only [List.mem_cons, not_or]
          exact ⟨fun h => ha h.symm, hrest⟩
        · intro _
          rfl

/-- The found index holds the queried id. -/
theorem idToIdx_getD {ids : List Int} {uid : Int} {i : Nat}
    (h : idToIdx ids uid = some i) : ids.getD i 0 = uid := by
  induction ids generalizing i with
  | nil => exact Option.noConfusion h
  | cons a rest ih =>
    simp only [idToIdx] at h
    cases hr : idToIdx rest uid with
    | some j =>
      rw [hr] at h
      injection h with h'
      subst h'
      simpa using ih hr
    | none =>
      rw [hr] at h
      split_ifs at h with ha
      injection h with h'
      subst h'
      simpa using ha

/-- Evaluation of `topk_for_user` on an unknown id. -/
theorem topk_eq_nil_of_unknown {g : CandidateGenerator} {u : Int} {k : Nat}
    (hid : idToIdx g.user_ids u = none) : topk_for_user g u k = [] := by
  simp only [topk_for_user, hid]

/-- Evaluation of `topk_for_user` when the effective `k` is zero. -/
theorem topk_eq_nil_of_keff {g : CandidateGenerator} {u : Int} {k : Nat} {idx : Nat}
    (hid : idToIdx g.user_ids u = some idx)
    (hk : min k (g.user_ids.length - 1) = 0) : topk_for_user g u k = [] := by
  simp only [topk_for_user, hid]
  rw [if_pos hk]

/-- Evaluation of `topk_for_user` in the productive case. -/
theorem topk_eq_take {g : CandidateGenerator} {u : Int} {k : Nat} {idx : Nat}
    (hid : idToIdx g.user_ids u = some idx)
    (hk : ¬ min k (g.user_ids.length - 1) = 0) :
    topk_for_user g u k =
      ((List.insertionSort (rankRel (simKey g idx))
          (List.range g.user_ids.length)).take (min k (g.user_ids.length - 1))).map
        (fun j => (g.user_ids.getD j 0, g.sim idx j)) := by
  simp only [topk_for_user, hid]
  rw [if_neg hk]

/-- C7: Over a dataset with unique user ids, a user never appears among its
own candidates, and `topk_for_user` is empty for an unknown id or a
population of fewer than 2 users. -/
theorem topk_no_self (g : CandidateGenerator) (u : Int) (k : Nat)
    (hnd : g.user_ids.Nodup) :
    (∀ s : ℚ, (u, s) ∉ topk_for_user g u k) ∧
    (u ∉ g.user_ids → topk_for_user g u k = []) ∧
    (g.user_ids.length < 2 → topk_for_user g u k = []) := by
  refine ⟨?_, ?_, ?_⟩
  · intro s hmem
    cases hid : idToIdx g.user_ids u with
    | none =>
      rw [topk_eq_nil_of_unknown hid] at hmem
      exact absurd hmem (List.not_mem_nil _)
    | some idx =>
      by_cases hk0 : min k (g.user_ids.length - 1) = 0
      · rw [topk_eq_nil_of_keff hid hk0] at hmem
        exact absurd hmem (List.not_mem_nil _)
      · rw [topk_eq_take hid hk0] at hmem
        obtain ⟨j, hj, hfj⟩ := List.mem_map.1 hmem
        have hidx : idx < g.user_ids.length := idToIdx_lt hid
        have hnotmem : idx ∉ (List.insertionSort (rankRel (simKey g idx))
            (List.range g.user_ids.length)).take (min k (g.user_ids.length - 1)) :=
          idx_not_mem_sort_take (simKey g idx) idx g.user_ids.length _
            (simKey_eq_bot_iff g idx) (min_le_right _ _) (by omega)
        have hjne : j ≠ idx := fun h => hnotmem (h ▸ hj)
        have hjS : j ∈ List.insertionSort (rankRel (simKey g idx))
            (List.range g.user_ids.length) := List.mem_of_mem_take hj
        have hjn : j < g.user_ids.length := by
          have := (List.perm_insertionSort (rankRel (simKey g idx))
            (List.range g.user_ids.length)).mem_iff.1 hjS
          exact List.mem_range.1 this
        have hgu : g.user_ids.getD j 0 = u := congrArg Prod.fst hfj
        have hgidx : g.user_ids.getD idx 0 = u := idToIdx_getD hid
        have hget : g.user_ids.get ⟨j, hjn⟩ = g.user_ids.get ⟨idx, hidx⟩ := by
          rw [List.get_eq_getElem, List.get_eq_getElem,
            ← List.getD_eq_getElem g.user_ids 0 hjn,
            ← List.getD_eq_getElem g.user_ids 0 hidx, hgu, hgidx]
        have := (List.Nodup.get_inj_iff hnd).1 hget
        exact hjne (congrArg Fin.val this)
  · intro hu
    exact topk_eq_nil_of_unknown (idToIdx_eq_none.2 hu)
  · intro hlen
    cases hid : idToIdx g.user_ids u with
    | none => exact topk_eq_nil_of_unknown hid
    | some idx =>
      have hidx : idx < g.user_ids.length := idToIdx_lt hid
      exact topk_eq_nil_of_keff hid (by omega)

/-- C7 witness: user 1 of a 3-user population is absent from its own top-2,
and an unknown id yields the empty list. -/
theorem topk_no_self_witness :
    ((1, (1 : ℚ)) ∉ topk_for_user ⟨[1, 2, 3], fun _ _ => 1⟩ 1 2) ∧
    topk_for_user ⟨[1, 2, 3], fun _ _ => 1⟩ 9 2 = [] :=
  ⟨(topk_no_self ⟨[1, 2, 3], fun _ _ => 1⟩ 1 2 (by decide)).1 1,
    (topk_no_self ⟨[1, 2, 3], fun _ _ => 1⟩ 9 2 (by decide)).2.1 (by decide)⟩

/-- Non-increasing similarity of the emitted pairs holds for **every**
non-increasing-key arrangement of the rows — the only ordering property the
source's `argpartition` + `argsort` + `[::-1]` composite guarantees, since
`argpartition` may reorder equal-keyed rows in either direction before the
argsort sees them. -/
theorem topk_order_robust (g : CandidateGenerator) (idx : Nat)
    (order : List Nat) (k : Nat)
    (hperm : order.Perm (List.range g.user_ids.length))
    (hdesc : List.Pairwise (fun i j => simKey g idx j ≤ simKey g idx i) order)
    (hk : k ≤ g.user_ids.length - 1) (hn : 1 ≤ g.user_ids.length) :
    List.Pairwise (fun a b : Int × ℚ => b.2 ≤ a.2)
      ((order.take k).map (fun j => (g.user_ids.getD j 0, g.sim idx j))) := by
  have hnotmem : idx ∉ order.take k :=
    idx_not_mem_desc_take (simKey g idx) order idx g.user_ids.length k
      (simKey_eq_bot_iff g idx) hperm hdesc hk hn
  rw [List.pairwise_map]
  have hpair : List.Pairwise (fun i j => simKey g idx j ≤ simKey g idx i)
      (order.take k) :=
    hdesc.sublist (List.take_sublist _ _)
  refine hpair.imp_of_mem ?_
  intro i j hi hj hle
  have hine : i ≠ idx := fun h => hnotmem (h ▸ hi)
  have hjne : j ≠ idx := fun h => hnotmem (h ▸ hj)
  have hki : simKey g idx i = ((g.sim idx i : ℚ) : WithBot ℚ) := by
    unfold simKey
    rw [if_neg hine]
  have hkj : simKey g idx j = ((g.sim idx j : ℚ) : WithBot ℚ) := by
    unfold simKey
    rw [if_neg hjne]
  rw [hki, hkj] at hle
  exact WithBot.coe_le_coe.1 hle

/-- C3 (amended): `topk_for_user` returns at most `min(k, N-1)` entries,
ordered by non-increasing similarity.  The relative order of
equal-similarity candidates is implementation-defined — NumPy's
`argpartition` may reorder ties in either direction before the stable
argsort — and in particular is **not** ascending candidate id.  Proved via
`topk_order_robust`, which holds for every non-increasing-key arrangement
and so does not depend on the tie resolution the embedding fixes. -/
theorem topk_sorted (g : CandidateGenerator) (u : Int) (k : Nat) :
    (topk_for_user g u k).length ≤ min k (g.user_ids.length - 1) ∧
    List.Pairwise (fun a b : Int × ℚ => b.2 ≤ a.2) (topk_for_user g u k) := by
  cases hid : idToIdx g.user_ids u with
  | none => simp [topk_eq_nil_of_unknown hid]
  | some idx =>
    by_cases hk0 : min k (g.user_ids.length - 1) = 0
    · simp [topk_eq_nil_of_keff hid hk0]
    · rw [topk_eq_take hid hk0]
      have hidx : idx < g.user_ids.length := idToIdx_lt hid
      constructor
      · rw [List.length_map, List.length_take]
        exact min_le_left _ _
      · exact topk_order_robust g idx _ _ (List.perm_insertionSort _ _)
          (sort_weakDesc (simKey g idx) g.user_ids.length)
          (min_le_right _ _) (by omega)

/-- C3 counterexample to the claim as stated: between the two
equal-similarity candidates of user 1, candidate 3 is listed before
candidate 2, so ties are not broken by ascending candidate id. -/
theorem topk_tie_order_cex :
    topk_for_user ⟨[1, 2, 3], fun _ _ => 1⟩ 1 2 = [(3, 1), (2, 1)] ∧
    ¬ List.Pairwise (fun a b : Int × ℚ => b.2 < a.2 ∨ (a.2 = b.2 ∧ a.1 < b.1))
      (topk_for_user ⟨[1, 2, 3], fun _ _ => 1⟩ 1 2) := by
  constructor
  · decide
  · decide

end MateRec
